import Mathlib

/-!
Verification of the Medical-Query-Firewall decision pipeline.

Shallow embedding of `app/utils.py` and the audit slice of `app/app.py`.
Python floats are modelled as rationals (`ℚ`); all comparisons in the source
are order comparisons against decimal literals, which the rational model
preserves exactly.  External capabilities (the compiled-regex search of the
`re` module for rule patterns, and the sklearn classifier's
`predict_proba`) are modelled as oracle function parameters, mirroring
`re.compile(p, re.IGNORECASE).search(text)` and `clf.predict_proba`.
Text handled by the PII redactor is modelled as `List Char`; the PII
regular expressions of `utils.py` lines 20-24 are embedded directly as
executable matchers with Python `re` leftmost / greedy semantics.
-/

namespace MQF

/-- The three verdicts of the pipeline (`"ALLOW" | "WARN" | "BLOCK"` strings
in the source), totally ordered by severity via `Decision.rank`. -/
inductive Decision where
  | ALLOW
  | WARN
  | BLOCK
deriving DecidableEq, Repr

/-- Severity order `ALLOW < WARN < BLOCK` from the spec, as a numeric rank. -/
def Decision.rank : Decision → Nat
  | .ALLOW => 0
  | .WARN => 1
  | .BLOCK => 2

/-- A rule record as stored in `rules/rules.json`:
`{id, pattern, severity, action, explanation}`. -/
structure Rule where
  id : String
  pattern : String
  severity : String
  action : String
  explanation : String
deriving DecidableEq, Repr

/-- Result of `classify_text` (utils.py lines 45-53): top label, its
probability, and the full per-class distribution. -/
structure ClassifierResult where
  label : String
  score : ℚ
  proba : List (String × ℚ)
deriving DecidableEq, Repr

/-- A block-hit / warn-hit record (utils.py lines 101 and 105):
`{"class": cls_name, "prob": prob, "threshold": thr}`.  The Python key
`class` is a Lean keyword, hence the field name `cls`. -/
structure Hit where
  cls : String
  prob : ℚ
  threshold : ℚ
deriving DecidableEq, Repr

/-- Return value of `decision_aggregator`.  The optional `block_hits` and
`warn_hits` fields model the keys that are present only in the returns at
utils.py lines 109 and 111; `none` means the key is absent. -/
structure AggResult where
  decision : Decision
  matched_rules : List Rule
  classifier : ClassifierResult
  block_hits : Option (List Hit) := none
  warn_hits : Option (List Hit) := none
deriving DecidableEq, Repr

/-- Embedding of `match_rules` (utils.py lines 36-43): every configured
rule's pattern is evaluated against the text and the matching rules are
returned in configuration order.  `research p t` is the oracle for
`re.compile(p, re.IGNORECASE).search(t) is not None`; the IGNORECASE flag
and the regex engine itself live behind this oracle. -/
def match_rules (research : String → String → Bool) (rules : List Rule)
    (text : String) : List Rule :=
  rules.filter (fun r => research r.pattern text)

/-- Fallible variant of `match_rules` making the `re.compile(r["pattern"],
re.IGNORECASE)` call at utils.py line 40 explicit: `recompile` models
`re.compile`, which raises `re.error` on a malformed pattern, and this
exception propagates out of `match_rules` at match time. -/
def matchRulesE (recompile : String → Except String (String → Bool)) :
    List Rule → String → Except String (List Rule)
  | [], _ => .ok []
  | r :: rs, text =>
    match recompile r.pattern with
    | .error e => .error e
    | .ok patt =>
      match matchRulesE recompile rs text with
      | .error e => .error e
      | .ok rest => .ok (if patt text then r :: rest else rest)

/-- Embedding of the rule load at utils.py lines 8-11: `RULES` is bound to
the value parsed by `json.load` from `rules/rules.json`.  File IO and JSON
parsing are external; the essential, source-visible fact is that no regex
compilation or pattern validation happens at load time — any parsed rule
list is accepted as-is. -/
def loadRules (parsed : List Rule) : Except String (List Rule) :=
  Except.ok parsed

/-- First entry of maximal probability, mirroring `proba.argmax()` of
utils.py line 49 (numpy `argmax` returns the first index attaining the
maximum). -/
def topEntry : List (String × ℚ) → Option (String × ℚ)
  | [] => none
  | e :: es =>
    match topEntry es with
    | none => some e
    | some b => some (if e.2 < b.2 then b else e)

/-- Embedding of `classify_text` (utils.py lines 45-53).  `clf t` is the
oracle for the classifier pipeline's labelled probability distribution
(`zip(clf.classes_, clf.predict_proba([t])[0])` in class order). -/
def classify_text (clf : String → List (String × ℚ)) (text : String) :
    ClassifierResult :=
  match topEntry (clf text) with
  | some e => { label := e.1, score := e.2, proba := clf text }
  | none => { label := "", score := 0, proba := [] }

/-- `d.get(k, dflt)` on a Python dict modelled as an association list. -/
def dictGet (d : List (String × ℚ)) (k : String) (dflt : ℚ) : ℚ :=
  match d.find? (fun e => e.1 == k) with
  | some e => e.2
  | none => dflt

/-- `d.get(k)` returning `none` when the key is absent. -/
def dictGetOpt (d : List (String × ℚ)) (k : String) : Option ℚ :=
  (d.find? (fun e => e.1 == k)).map Prod.snd

/-- Block thresholds of utils.py lines 61-65. -/
def CLASS_THRESHOLDS : List (String × ℚ) :=
  [("self_harm", 40/100), ("prescription_request", 60/100), ("procedural", 55/100)]

/-- Warn thresholds of utils.py lines 66-70. -/
def WARN_THRESHOLDS : List (String × ℚ) :=
  [("self_harm", 25/100), ("prescription_request", 40/100), ("procedural", 35/100)]

/-- The effective warn threshold of a class entry `e = (name, blk_thr)`:
`WARN_THRESHOLDS.get(cls_name, blk_thr * 0.6)` of utils.py line 103. -/
def warnThrOf (wT : List (String × ℚ)) (e : String × ℚ) : ℚ :=
  (dictGetOpt wT e.1).getD (e.2 * (6/10))

/-- The Tier-2 loop of utils.py lines 96-105: walk the block-threshold
table in order, recording a block-hit when `prob >= blk_thr` and otherwise
a warn-hit when `prob >= warn_thr`.  Returns `(block_hits, warn_hits)` in
iteration order. -/
def evalHits (proba : List (String × ℚ)) (wT : List (String × ℚ)) :
    List (String × ℚ) → List Hit × List Hit
  | [] => ([], [])
  | e :: rest =>
    let prev := evalHits proba wT rest
    let prob := dictGet proba e.1 0
    if e.2 ≤ prob then (⟨e.1, prob, e.2⟩ :: prev.1, prev.2)
    else if warnThrOf wT e ≤ prob then
      (prev.1, ⟨e.1, prob, warnThrOf wT e⟩ :: prev.2)
    else prev

/-- Python `str.upper()` restricted to the ASCII range of `Char.toUpper`,
written as a plain character map so it evaluates by computation. -/
def pyUpper (s : String) : String :=
  String.mk (s.data.map Char.toUpper)

/-- The Tier-1 test at utils.py line 88:
`r["severity"].upper() == "HIGH" and r["action"].upper() == "BLOCK"`. -/
def isHighBlock (r : Rule) : Bool :=
  pyUpper r.severity == "HIGH" && pyUpper r.action == "BLOCK"

/-- Embedding of `decision_aggregator` (utils.py lines 72-120), with the
rule list and both threshold tables as explicit parameters (they are
module-level configuration in the source).  `classify_text` is pure, so
the two textually separate calls at lines 89 and 93 are one shared value. -/
def decision_aggregator (research : String → String → Bool)
    (clf : String → List (String × ℚ)) (rules : List Rule)
    (cT wT : List (String × ℚ)) (text : String) : AggResult :=
  let r_matches := match_rules research rules text
  let clf_res := classify_text clf text
  if r_matches.any isHighBlock then
    { decision := .BLOCK, matched_rules := r_matches, classifier := clf_res }
  else
    let hits := evalHits clf_res.proba wT cT
    if hits.1 ≠ [] then
      { decision := .BLOCK, matched_rules := r_matches, classifier := clf_res,
        block_hits := some hits.1 }
    else if hits.2 ≠ [] then
      { decision := .WARN, matched_rules := r_matches, classifier := clf_res,
        warn_hits := some hits.2 }
    else if (85/100 : ℚ) ≤ clf_res.score then
      { decision := .BLOCK, matched_rules := r_matches, classifier := clf_res }
    else if (50/100 : ℚ) ≤ clf_res.score then
      { decision := .WARN, matched_rules := r_matches, classifier := clf_res }
    else
      { decision := .ALLOW, matched_rules := r_matches, classifier := clf_res }

/-- `decision_aggregator` with the threshold tables hard-wired as in the
source module. -/
def decision_aggregator_src (research : String → String → Bool)
    (clf : String → List (String × ℚ)) (rules : List Rule)
    (text : String) : AggResult :=
  decision_aggregator research clf rules CLASS_THRESHOLDS WARN_THRESHOLDS text

/-- The decision of Tiers 2 and 3 alone, used to show that when no
HIGH/BLOCK rule matches the verdict is independent of the rule list. -/
def tier23decision (clf : String → List (String × ℚ))
    (cT wT : List (String × ℚ)) (text : String) : Decision :=
  let clf_res := classify_text clf text
  let hits := evalHits clf_res.proba wT cT
  if hits.1 ≠ [] then .BLOCK
  else if hits.2 ≠ [] then .WARN
  else if (85/100 : ℚ) ≤ clf_res.score then .BLOCK
  else if (50/100 : ℚ) ≤ clf_res.score then .WARN
  else .ALLOW

/-- Block-hits following the spec's Tier-2 words: one hit per configured
hazardous class whose probability reaches its block-threshold. -/
def specBlockHits (proba : List (String × ℚ))
    (cT : List (String × ℚ)) : List Hit :=
  cT.filterMap (fun e =>
    let prob := dictGet proba e.1 0
    if e.2 ≤ prob then some ⟨e.1, prob, e.2⟩ else none)

/-- Warn-hits following the spec's Tier-2 words: one hit per configured
hazardous class whose probability is below its block-threshold but reaches
its (possibly fallback `0.6 × block`) warn-threshold. -/
def specWarnHits (proba wT : List (String × ℚ))
    (cT : List (String × ℚ)) : List Hit :=
  cT.filterMap (fun e =>
    let prob := dictGet proba e.1 0
    if e.2 ≤ prob then none
    else if warnThrOf wT e ≤ prob then some ⟨e.1, prob, warnThrOf wT e⟩
    else none)

theorem evalHits_eq_spec (proba wT : List (String × ℚ)) :
    ∀ cT, evalHits proba wT cT = (specBlockHits proba cT, specWarnHits proba wT cT) := by
  intro cT
  induction cT with
  | nil => rfl
  | cons e rest ih =>
    simp only [evalHits, specBlockHits, specWarnHits, List.filterMap_cons] at *
    by_cases hb : e.2 ≤ dictGet proba e.1 0
    · simp [hb, ih, specBlockHits, specWarnHits]
    · by_cases hw : warnThrOf wT e ≤ dictGet proba e.1 0
      · simp [hb, hw, ih, specBlockHits, specWarnHits]
      · simp [hb, hw, ih, specBlockHits, specWarnHits]

theorem rank_le_two (d : Decision) : d.rank ≤ 2 := by
  cases d <;> simp [Decision.rank]

/-- When no matched rule is HIGH/BLOCK, the verdict is exactly the Tier-2/3
computation, which does not read the rule list. -/
theorem agg_decision_noHigh (research : String → String → Bool)
    (clf : String → List (String × ℚ)) (rules : List Rule)
    (cT wT : List (String × ℚ)) (text : String)
    (h : (match_rules research rules text).any isHighBlock = false) :
    (decision_aggregator research clf rules cT wT text).decision =
      tier23decision clf cT wT text := by
  simp only [decision_aggregator, tier23decision, h, Bool.false_eq_true, if_false]
  split
  · rfl
  · split
    · rfl
    · split
      · rfl
      · split <;> rfl

theorem specBlockHits_nil (proba : List (String × ℚ)) (cT : List (String × ℚ))
    (h : specBlockHits proba cT = []) :
    ∀ e ∈ cT, ¬ e.2 ≤ dictGet proba e.1 0 := by
  rw [specBlockHits, List.filterMap_eq_nil_iff] at h
  intro e he hle
  have := h e he
  simp [hle] at this

theorem specWarnHits_classes (proba wT : List (String × ℚ)) :
    ∀ cT, (∀ e ∈ cT, ¬ e.2 ≤ dictGet proba e.1 0) →
      (specWarnHits proba wT cT).map Hit.cls =
      (cT.filter (fun e => decide (warnThrOf wT e ≤ dictGet proba e.1 0))).map Prod.fst := by
  intro cT
  induction cT with
  | nil => intro _; rfl
  | cons e rest ih =>
    intro hall
    have he : ¬ e.2 ≤ dictGet proba e.1 0 := hall e (by simp)
    have hrest := ih (fun x hx => hall x (by simp [hx]))
    by_cases hw : warnThrOf wT e ≤ dictGet proba e.1 0
    · simp [specWarnHits, List.filterMap_cons, he, hw, List.filter_cons] at *
      simpa [specWarnHits] using hrest
    · simp [specWarnHits, List.filterMap_cons, he, hw, List.filter_cons] at *
      simpa [specWarnHits] using hrest

/-- C1: if at least one matched rule has severity HIGH and action BLOCK,
the decision is BLOCK regardless of the classifier's distribution (the
classifier oracle `clf` is arbitrary, so in particular the claim holds when
all probabilities are 0), and the classifier result is still included in the
returned value for explainability. -/
theorem c1_high_block_rule_forces_block (research : String → String → Bool)
    (clf : String → List (String × ℚ)) (rules : List Rule)
    (cT wT : List (String × ℚ)) (text : String)
    (h : ∃ r ∈ match_rules research rules text,
          pyUpper r.severity = "HIGH" ∧ pyUpper r.action = "BLOCK") :
    (decision_aggregator research clf rules cT wT text).decision = .BLOCK ∧
    (decision_aggregator research clf rules cT wT text).classifier =
      classify_text clf text ∧
    (decision_aggregator research clf rules cT wT text).matched_rules =
      match_rules research rules text := by
  obtain ⟨r, hr, hs, ha⟩ := h
  have hany : (match_rules research rules text).any isHighBlock = true := by
    rw [List.any_eq_true]
    exact ⟨r, hr, by simp [isHighBlock, hs, ha]⟩
  refine ⟨?_, ?_, ?_⟩ <;> simp [decision_aggregator, hany]

/-- A rule whose pattern the oracle accepts on every text. -/
def rHB : Rule :=
  { id := "r1", pattern := "narcotic", severity := "HIGH", action := "BLOCK",
    explanation := "hard deny" }

/-- Oracle for a pattern that matches every text. -/
def researchAll : String → String → Bool := fun _ _ => true

/-- Oracle for a configuration where no rule pattern matches. -/
def researchNone : String → String → Bool := fun _ _ => false

/-- Classifier stub with all probabilities at 0. -/
def clfZero : String → List (String × ℚ) := fun _ =>
  [("self_harm", 0), ("prescription_request", 0), ("procedural", 0), ("general_info", 0)]

theorem c1_witness :
    (decision_aggregator researchAll clfZero [rHB] CLASS_THRESHOLDS
      WARN_THRESHOLDS "how to get narcotics").decision = Decision.BLOCK :=
  (c1_high_block_rule_forces_block researchAll clfZero [rHB] CLASS_THRESHOLDS
    WARN_THRESHOLDS "how to get narcotics"
    ⟨rHB, by decide, by decide, by decide⟩).1

/-- C2: with no HIGH/BLOCK rule matched, Tier 2 evaluates every configured
hazardous class, records the block-hits and warn-hits described by the spec
(fallback warn threshold `0.6 × block` when the class has no configured
warn threshold), decides BLOCK when any block-hit exists, else WARN when
any warn-hit exists, and in the WARN case the returned `warn_hits` names
exactly the classes whose effective warn-threshold was crossed. -/
theorem c2_tier2_cascade (research : String → String → Bool)
    (clf : String → List (String × ℚ)) (rules : List Rule)
    (cT wT : List (String × ℚ)) (text : String)
    (hno : (match_rules research rules text).any isHighBlock = false) :
    (evalHits (classify_text clf text).proba wT cT =
      (specBlockHits (classify_text clf text).proba cT,
       specWarnHits (classify_text clf text).proba wT cT)) ∧
    (specBlockHits (classify_text clf text).proba cT ≠ [] →
      (decision_aggregator research clf rules cT wT text).decision = .BLOCK ∧
      (decision_aggregator research clf rules cT wT text).block_hits =
        some (specBlockHits (classify_text clf text).proba cT)) ∧
    (specBlockHits (classify_text clf text).proba cT = [] →
      specWarnHits (classify_text clf text).proba wT cT ≠ [] →
      (decision_aggregator research clf rules cT wT text).decision = .WARN ∧
      (decision_aggregator research clf rules cT wT text).warn_hits =
        some (specWarnHits (classify_text clf text).proba wT cT)) ∧
    (specBlockHits (classify_text clf text).proba cT = [] →
      (specWarnHits (classify_text clf text).proba wT cT).map Hit.cls =
      (cT.filter (fun e =>
        decide (warnThrOf wT e ≤ dictGet (classify_text clf text).proba e.1 0))).map
        Prod.fst) := by
  have hspec := evalHits_eq_spec (classify_text clf text).proba wT cT
  refine ⟨hspec, ?_, ?_, ?_⟩
  · intro hb
    constructor <;> simp [decision_aggregator, hno, hspec, hb]
  · intro hb hw
    constructor <;> simp [decision_aggregator, hno, hspec, hb, hw]
  · intro hb
    exact specWarnHits_classes _ wT cT (specBlockHits_nil _ cT hb)

/-- Classifier stub whose only mass sits between the self-harm warn and
block thresholds. -/
def clfWarn : String → List (String × ℚ) := fun _ => [("self_harm", 3/10)]

theorem c2_witness :
    (decision_aggregator researchNone clfWarn [] CLASS_THRESHOLDS
      WARN_THRESHOLDS "q").decision = Decision.WARN ∧
    (decision_aggregator researchNone clfWarn [] CLASS_THRESHOLDS
      WARN_THRESHOLDS "q").warn_hits =
      some [{ cls := "self_harm", prob := 3/10, threshold := 25/100 }] := by
  have hspecB : specBlockHits (classify_text clfWarn "q").proba CLASS_THRESHOLDS = [] := by
    with_unfolding_all decide
  have hspecW : specWarnHits (classify_text clfWarn "q").proba WARN_THRESHOLDS
      CLASS_THRESHOLDS =
      [{ cls := "self_harm", prob := 3/10, threshold := 25/100 }] := by
    with_unfolding_all decide
  have h := (c2_tier2_cascade researchNone clfWarn [] CLASS_THRESHOLDS
    WARN_THRESHOLDS "q" rfl).2.2.1 hspecB (by rw [hspecW]; simp)
  rw [hspecW] at h
  exact h

/-- C3: when no HIGH/BLOCK rule matched and Tier 2 recorded no hit at all,
the decision comes from the classifier's top probability: `≥ 0.85` gives
BLOCK (boundary inclusive), `[0.5, 0.85)` gives WARN, `< 0.5` gives
ALLOW. -/
theorem c3_tier3_fallback (research : String → String → Bool)
    (clf : String → List (String × ℚ)) (rules : List Rule)
    (cT wT : List (String × ℚ)) (text : String)
    (hno : (match_rules research rules text).any isHighBlock = false)
    (hhits : evalHits (classify_text clf text).proba wT cT = ([], [])) :
    ((85/100 : ℚ) ≤ (classify_text clf text).score →
      (decision_aggregator research clf rules cT wT text).decision = .BLOCK) ∧
    ((50/100 : ℚ) ≤ (classify_text clf text).score →
      (classify_text clf text).score < 85/100 →
      (decision_aggregator research clf rules cT wT text).decision = .WARN) ∧
    ((classify_text clf text).score < 50/100 →
      (decision_aggregator research clf rules cT wT text).decision = .ALLOW) := by
  refine ⟨?_, ?_, ?_⟩
  · intro hs
    simp [decision_aggregator, hno, hhits, hs]
  · intro hs hlt
    simp [decision_aggregator, hno, hhits, hs, not_le.mpr hlt]
  · intro hlt
    have h85 : ¬ (85/100 : ℚ) ≤ (classify_text clf text).score := by
      intro hc; exact absurd (lt_of_lt_of_le hlt (by norm_num)) (not_lt.mpr hc)
    simp [decision_aggregator, hno, hhits, h85, not_le.mpr hlt]

/-- Classifier stub with top probability exactly at the 0.85 boundary on a
non-hazardous label. -/
def clfBoundary : String → List (String × ℚ) := fun _ => [("general_info", 85/100)]

theorem c3_witness :
    (decision_aggregator researchNone clfBoundary [] CLASS_THRESHOLDS
      WARN_THRESHOLDS "q").decision = Decision.BLOCK := by
  have hhits : evalHits (classify_text clfBoundary "q").proba WARN_THRESHOLDS
      CLASS_THRESHOLDS = ([], []) := by
    with_unfolding_all decide
  have hscore : (85/100 : ℚ) ≤ (classify_text clfBoundary "q").score := by
    with_unfolding_all decide
  exact (c3_tier3_fallback researchNone clfBoundary [] CLASS_THRESHOLDS
    WARN_THRESHOLDS "q" rfl hhits).1 hscore

/-- C5: with the same thresholds and the same pattern-matching oracle, a
rule configuration that contains every rule of another yields a decision at
least as severe, in the order `ALLOW < WARN < BLOCK`. -/
theorem c5_rule_monotonicity (research : String → String → Bool)
    (clf : String → List (String × ℚ)) (cT wT : List (String × ℚ))
    (text : String) (R1 R2 : List Rule)
    (hsub : ∀ r ∈ R2, r ∈ R1) :
    (decision_aggregator research clf R2 cT wT text).decision.rank ≤
    (decision_aggregator research clf R1 cT wT text).decision.rank := by
  by_cases h2 : (match_rules research R2 text).any isHighBlock = true
  · have h1 : (match_rules research R1 text).any isHighBlock = true := by
      rw [List.any_eq_true] at h2 ⊢
      obtain ⟨r, hr, hhb⟩ := h2
      rw [match_rules, List.mem_filter] at hr
      exact ⟨r, List.mem_filter.mpr ⟨hsub r hr.1, hr.2⟩, hhb⟩
    simp [decision_aggregator, h1, h2]
  · have h2' : (match_rules research R2 text).any isHighBlock = false :=
      Bool.eq_false_iff.mpr h2
    by_cases h1 : (match_rules research R1 text).any isHighBlock = true
    · have hB : (decision_aggregator research clf R1 cT wT text).decision = .BLOCK := by
        simp [decision_aggregator, h1]
      rw [hB]
      exact rank_le_two _
    · have h1' : (match_rules research R1 text).any isHighBlock = false :=
        Bool.eq_false_iff.mpr h1
      rw [agg_decision_noHigh research clf R1 cT wT text h1',
        agg_decision_noHigh research clf R2 cT wT text h2']

theorem c5_witness :
    (decision_aggregator researchAll clfZero [rHB] CLASS_THRESHOLDS
      WARN_THRESHOLDS "t").decision.rank ≤
    (decision_aggregator researchAll clfZero [rHB] CLASS_THRESHOLDS
      WARN_THRESHOLDS "t").decision.rank :=
  c5_rule_monotonicity researchAll clfZero CLASS_THRESHOLDS WARN_THRESHOLDS "t"
    [rHB] [rHB] (fun _ hr => hr)

/-- C7: `match_rules` returns exactly the configured rules whose pattern
matches the text, as an order-preserving sublist of the configuration, and
it is a pure function of the text and configuration (repeated calls
agree). -/
theorem c7_match_rules_contract (research : String → String → Bool)
    (rules : List Rule) (text : String) :
    (∀ r, r ∈ match_rules research rules text ↔
      r ∈ rules ∧ research r.pattern text = true) ∧
    List.Sublist (match_rules research rules text) rules ∧
    match_rules research rules text = match_rules research rules text := by
  refine ⟨?_, ?_, rfl⟩
  · intro r
    rw [match_rules, List.mem_filter]
  · exact List.filter_sublist _

/-- C10: the aggregator's output always carries one of the three verdicts,
the full matched-rule list and the classifier result; it never carries both
a `block_hits` and a `warn_hits` key; `block_hits` appears only with BLOCK,
`warn_hits` only with WARN; and whenever Tier 2 recorded any block-hit the
recorded warn-hits are discarded from the output. -/
theorem c10_output_invariants (research : String → String → Bool)
    (clf : String → List (String × ℚ)) (rules : List Rule)
    (cT wT : List (String × ℚ)) (text : String) :
    ((decision_aggregator research clf rules cT wT text).decision = .ALLOW ∨
     (decision_aggregator research clf rules cT wT text).decision = .WARN ∨
     (decision_aggregator research clf rules cT wT text).decision = .BLOCK) ∧
    (decision_aggregator research clf rules cT wT text).matched_rules =
      match_rules research rules text ∧
    (decision_aggregator research clf rules cT wT text).classifier =
      classify_text clf text ∧
    ((decision_aggregator research clf rules cT wT text).block_hits = none ∨
     (decision_aggregator research clf rules cT wT text).warn_hits = none) ∧
    ((decision_aggregator research clf rules cT wT text).block_hits ≠ none →
      (decision_aggregator research clf rules cT wT text).decision = .BLOCK) ∧
    ((decision_aggregator research clf rules cT wT text).warn_hits ≠ none →
      (decision_aggregator research clf rules cT wT text).decision = .WARN) ∧
    ((evalHits (classify_text clf text).proba wT cT).1 ≠ [] →
      (decision_aggregator research clf rules cT wT text).warn_hits = none) := by
  by_cases hA : (match_rules research rules text).any isHighBlock = true
  · refine ⟨?_, ?_, ?_, ?_, ?_, ?_, ?_⟩ <;> simp [decision_aggregator, hA]
  · have hA' : (match_rules research rules text).any isHighBlock = false :=
      Bool.eq_false_iff.mpr hA
    by_cases hB : (evalHits (classify_text clf text).proba wT cT).1 ≠ []
    · refine ⟨?_, ?_, ?_, ?_, ?_, ?_, ?_⟩ <;> simp [decision_aggregator, hA', hB]
    · by_cases hC : (evalHits (classify_text clf text).proba wT cT).2 ≠ []
      · refine ⟨?_, ?_, ?_, ?_, ?_, ?_, ?_⟩ <;>
          simp [decision_aggregator, hA', hB, hC]
      · by_cases h85 : (85/100 : ℚ) ≤ (classify_text clf text).score
        · refine ⟨?_, ?_, ?_, ?_, ?_, ?_, ?_⟩ <;>
            simp [decision_aggregator, hA', hB, hC, h85]
        · by_cases h50 : (50/100 : ℚ) ≤ (classify_text clf text).score
          · refine ⟨?_, ?_, ?_, ?_, ?_, ?_, ?_⟩ <;>
              simp [decision_aggregator, hA', hB, hC, h85, h50]
          · refine ⟨?_, ?_, ?_, ?_, ?_, ?_, ?_⟩ <;>
              simp [decision_aggregator, hA', hB, hC, h85, h50]

/-- Classifier stub producing a self-harm block-hit together with a
prescription-request warn-hit in the same Tier-2 evaluation. -/
def clfBoth : String → List (String × ℚ) := fun _ =>
  [("self_harm", 1/2), ("prescription_request", 45/100)]

theorem c10_witness :
    (decision_aggregator researchNone clfBoth [] CLASS_THRESHOLDS
      WARN_THRESHOLDS "q").decision = Decision.BLOCK ∧
    (decision_aggregator researchNone clfBoth [] CLASS_THRESHOLDS
      WARN_THRESHOLDS "q").warn_hits = none := by
  have hev : evalHits (classify_text clfBoth "q").proba WARN_THRESHOLDS
      CLASS_THRESHOLDS =
      ([{ cls := "self_harm", prob := 1/2, threshold := 40/100 }],
       [{ cls := "prescription_request", prob := 45/100, threshold := 40/100 }]) := by
    with_unfolding_all decide
  have hbh : (decision_aggregator researchNone clfBoth [] CLASS_THRESHOLDS
      WARN_THRESHOLDS "q").block_hits =
      some [{ cls := "self_harm", prob := 1/2, threshold := 40/100 }] := by
    with_unfolding_all decide
  exact ⟨(c10_output_invariants researchNone clfBoth [] CLASS_THRESHOLDS
      WARN_THRESHOLDS "q").2.2.2.2.1 (by rw [hbh]; simp),
    (c10_output_invariants researchNone clfBoth [] CLASS_THRESHOLDS
      WARN_THRESHOLDS "q").2.2.2.2.2.2 (by rw [hev]; simp)⟩

/-- Classifier stub for the flu scenario of the spec: top label
`general_info` at probability 0.9, every hazardous class at 0. -/
def clfFlu : String → List (String × ℚ) := fun _ =>
  [("general_info", 9/10), ("self_harm", 0), ("prescription_request", 0),
   ("procedural", 0)]

/-- C4 (code behaviour at the claimed scenario): with classifier top label
`general_info` at 0.9, no rule matching, and no hazardous class reaching
its warn threshold, Tier 2 records no hit, so the source's unconditional
Tier-3 fallback fires on the 0.9 top score and the decision is BLOCK — not
ALLOW as the claim states. -/
theorem c4_tier3_blocks_benign_query :
    match_rules researchNone [] "What are symptoms of flu?" = [] ∧
    evalHits (classify_text clfFlu "What are symptoms of flu?").proba
      WARN_THRESHOLDS CLASS_THRESHOLDS = ([], []) ∧
    (classify_text clfFlu "What are symptoms of flu?").label = "general_info" ∧
    (classify_text clfFlu "What are symptoms of flu?").score = 9/10 ∧
    (decision_aggregator_src researchNone clfFlu []
      "What are symptoms of flu?").decision = Decision.BLOCK := by
  refine ⟨rfl, ?_, ?_, ?_, ?_⟩ <;> with_unfolding_all decide

/-- A rule whose pattern is not a valid regular expression: `re.compile`
rejects the lone `(`. -/
def badRule : Rule :=
  { id := "r_bad", pattern := "(", severity := "HIGH", action := "BLOCK",
    explanation := "broken pattern" }

/-- `re.compile` oracle for the configuration holding `badRule`: Python
raises `re.error` on the pattern `"("` and compiles every other pattern of
this configuration to a matcher. -/
def recompileBad : String → Except String (String → Bool) := fun p =>
  if p = "(" then .error "re.error: missing ), unterminated subpattern"
  else .ok (fun _ => false)

/-- C8 (code behaviour): loading a configuration that contains a malformed
pattern succeeds, because `json.load` performs no pattern validation — and
the `re.compile` call inside `match_rules` then raises at match time, on
the first request that reaches the rule engine. -/
theorem c8_load_accepts_invalid_pattern_match_raises :
    loadRules [badRule] = Except.ok [badRule] ∧
    matchRulesE recompileBad [badRule] "any request text" =
      Except.error "re.error: missing ), unterminated subpattern" := by
  constructor <;> rfl

/-! PII redactor (utils.py lines 20-34).  The three patterns of
`PII_PATTERNS` are embedded directly, on text modelled as `List Char`:
  email   `[a-zA-Z0-9.\-+_]+@[a-zA-Z0-9.\-+_]+\.[a-zA-Z]+`
  phone   `\b\d{10}\b`
  aadhaar `\b\d{12}\b`
with Python `re` search / sub semantics: scan left to right, at each
position try a leftmost greedy (backtracking) match; `sub` replaces every
non-overlapping match, continuing after each replacement; matching is
always against the original characters. -/

/-- The character class `[a-zA-Z0-9.\-+_]` of the email pattern's local
part and domain part. -/
def isEmailChar (c : Char) : Bool :=
  c.isAlpha || c.isDigit || c == '.' || c == '-' || c == '+' || c == '_'

/-- Word characters for the `\b` boundaries of the digit patterns (the
ASCII core of `\w`). -/
def isWordChar (c : Char) : Bool :=
  c.isAlpha || c.isDigit || c == '_'

/-- Candidate backtracking cut for the email domain: after the `@`, the
greedy `[...]+` part may stop at offset `k` exactly when the `k`-th
character is the literal `.` and a letter follows. -/
def cutCond (R : List Char) (k : Nat) : Bool :=
  R.getD k ' ' == '.' && (R.getD (k + 1) ' ').isAlpha

/-- Largest cut `k` with `1 ≤ k ≤ n` satisfying `cutCond` — the cut the
greedy engine settles on after backtracking from the longest run. -/
def findCut (R : List Char) : Nat → Option Nat
  | 0 => none
  | n + 1 => if cutCond R (n + 1) then some (n + 1) else findCut R n

/-- Match of the email pattern anchored at the start of `s`, returning the
length Python's engine produces there.  The local part is forced to be the
maximal class run (since `@` is not in the class); the domain cut is the
largest `k` for which a `.`-then-letter split exists inside the maximal
class run after the `@`; the trailing letter run is maximal. -/
def emailMatch0 (s : List Char) : Option Nat :=
  let loc := s.takeWhile isEmailChar
  if loc.isEmpty then none
  else
    match s.drop loc.length with
    | '@' :: R =>
      match findCut R (R.takeWhile isEmailChar).length with
      | some k =>
        some (loc.length + 1 + k + 1 + ((R.drop (k + 1)).takeWhile Char.isAlpha).length)
      | none => none
    | _ => none

/-- The replacement token `f"[{'email'.upper()}]"` of utils.py line 32. -/
def EMAILTOK : List Char := ['[', 'E', 'M', 'A', 'I', 'L', ']']

/-- The replacement token for the phone pattern. -/
def PHONETOK : List Char := ['[', 'P', 'H', 'O', 'N', 'E', ']']

/-- The replacement token for the aadhaar pattern. -/
def AADHAARTOK : List Char := ['[', 'A', 'A', 'D', 'H', 'A', 'A', 'R', ']']

/-- `patt.sub("[EMAIL]", s)` for the email pattern: scan left to right,
replace each leftmost match and continue after it. -/
def emailSub : List Char → List Char
  | [] => []
  | c :: cs =>
    match emailMatch0 (c :: cs) with
    | some len => EMAILTOK ++ emailSub (cs.drop (len - 1))
    | none => c :: emailSub cs
termination_by s => s.length
decreasing_by
  all_goals simp only [List.length_drop, List.length_cons]
  all_goals omega

/-- `patt.search(s) is not None` for the email pattern. -/
def emailSearch : List Char → Bool
  | [] => (emailMatch0 []).isSome
  | c :: cs => (emailMatch0 (c :: cs)).isSome || emailSearch cs

/-- Match of `\b\d{n}\b` at the current position: `prev` is the character
immediately before the position (`none` at the start of the string).  The
pattern matches when the position sits on a word boundary, the next `n`
characters are digits, and the character after them (if any) is not a word
character. -/
def digitsMatch (n : Nat) (prev : Option Char) (s : List Char) : Option Nat :=
  let bBefore := match prev with | none => true | some p => !isWordChar p
  let run := s.take n
  let bAfter := match s.drop n with | [] => true | c :: _ => !isWordChar c
  if bBefore && run.length == n && run.all Char.isDigit && bAfter then some n
  else none

/-- `patt.sub(tok, s)` for `\b\d{n}\b`: the scan carries the previous
original character so the word-boundary assertions are evaluated against
the original string, exactly as `re.sub` does. -/
def digitsSub (n : Nat) (tok : List Char) : Option Char → List Char → List Char
  | _, [] => []
  | prev, c :: cs =>
    match digitsMatch n prev (c :: cs) with
    | some len =>
      tok ++ digitsSub n tok (some ((c :: cs).getD (len - 1) c)) (cs.drop (len - 1))
    | none => c :: digitsSub n tok (some c) cs
termination_by _ s => s.length
decreasing_by
  all_goals simp only [List.length_drop, List.length_cons]
  all_goals omega

/-- `patt.search(s) is not None` for `\b\d{n}\b`. -/
def digitsSearch (n : Nat) : Option Char → List Char → Bool
  | prev, [] => (digitsMatch n prev []).isSome
  | prev, c :: cs => (digitsMatch n prev (c :: cs)).isSome || digitsSearch n (some c) cs

/-- Return value of `mask_pii`. -/
structure PiiResult where
  masked_text : List Char
  pii : List String
deriving DecidableEq, Repr

/-- Embedding of `mask_pii` (utils.py lines 26-34): the `PII_PATTERNS`
dict iterates in insertion order email, phone, aadhaar; each stage tests
the text as masked so far and, on a hit, substitutes its token and appends
its category name. -/
def mask_pii (text : List Char) : PiiResult :=
  let m1 := if emailSearch text then emailSub text else text
  let p1 : List String := if emailSearch text then [] ++ ["email"] else []
  let m2 := if digitsSearch 10 none m1 then digitsSub 10 PHONETOK none m1 else m1
  let p2 := if digitsSearch 10 none m1 then p1 ++ ["phone"] else p1
  let m3 := if digitsSearch 12 none m2 then digitsSub 12 AADHAARTOK none m2 else m2
  let p3 := if digitsSearch 12 none m2 then p2 ++ ["aadhaar"] else p2
  { masked_text := m3, pii := p3 }

/-- Minimal window of an email-pattern match: one class character, `@`, a
nonempty class run, `.`, one letter.  A string contains a match of the
email regular expression exactly when it contains such a window as a
contiguous substring: a match `l₁…lₘ@d₁…dₖ.a₁…aᵣ` contains the window
`lₘ@d₁…dₖ.a₁`, and every window is itself a match. -/
def EmailWitness (w : List Char) : Prop :=
  ∃ (c : Char) (ds : List Char) (a : Char),
    w = c :: '@' :: (ds ++ '.' :: [a]) ∧ isEmailChar c = true ∧ ds ≠ [] ∧
    (∀ d ∈ ds, isEmailChar d = true) ∧ a.isAlpha = true

/-- The text contains a match of the email pattern. -/
def containsEmail (s : List Char) : Prop :=
  ∃ u w v, s = u ++ w ++ v ∧ EmailWitness w

theorem containsEmail_nil : ¬ containsEmail ([] : List Char) := by
  rintro ⟨u, w, v, heq, c, ds, a, hws, -, -, -, -⟩
  rw [hws] at heq
  simp at heq

theorem containsEmail_of_infix {t : List Char} (x y : List Char)
    (h : containsEmail t) : containsEmail (x ++ t ++ y) := by
  obtain ⟨u, w, v, heq, hw⟩ := h
  exact ⟨x ++ u, w, v ++ y, by rw [heq]; simp, hw⟩

theorem containsEmail_of_drop {s : List Char} (k : Nat)
    (h : containsEmail (s.drop k)) : containsEmail s := by
  have hx := containsEmail_of_infix (s.take k) [] h
  rw [List.append_nil, List.take_append_drop] at hx
  exact hx

theorem containsEmail_of_tail {c : Char} {cs : List Char}
    (h : containsEmail cs) : containsEmail (c :: cs) := by
  have hx := containsEmail_of_infix [c] [] h
  simpa using hx

/-- No character of an email window is a square bracket and its second
character is `@`, so a window cannot overlap a replacement token: dropping
a leading block `t` that contains no `@` and ends in `]` (such as
`[EMAIL]`, `[PHONE]`, `[AADHAAR]`) preserves window containment. -/
theorem containsEmail_skip_token :
    ∀ (t X : List Char), '@' ∉ t → (t = [] ∨ t.getLast? = some ']') →
      containsEmail (t ++ X) → containsEmail X := by
  intro t
  induction t with
  | nil => intro X _ _ h; simpa using h
  | cons tc t' ih =>
    intro X hat hlast h
    obtain ⟨u, w, v, heq, hw⟩ := h
    cases u with
    | cons uc u' =>
      simp only [List.cons_append] at heq
      obtain ⟨-, heq2⟩ := List.cons.inj heq
      have hl' : t' = [] ∨ t'.getLast? = some ']' := by
        cases t' with
        | nil => exact Or.inl rfl
        | cons d t'' =>
          right
          rcases hlast with h1 | h2
          · exact absurd h1 (by simp)
          · rw [List.getLast?_cons_cons] at h2
            exact h2
      exact ih X (fun hm => hat (List.mem_cons_of_mem _ hm)) hl' ⟨u', w, v, heq2, hw⟩
    | nil =>
      obtain ⟨c, ds, a, hws, hc, hds, hall, ha⟩ := hw
      rw [List.nil_append, hws] at heq
      cases t' with
      | nil =>
        simp only [List.cons_append, List.nil_append] at heq
        have htc : tc = c := (List.cons.inj heq).1
        rcases hlast with h1 | h2
        · exact absurd h1 (by simp)
        · have htcr : tc = ']' := by simpa using h2
          rw [htcr] at htc
          rw [← htc] at hc
          exact absurd hc (by decide)
      | cons d t'' =>
        have hd : d = '@' := by
          simp only [List.cons_append] at heq
          exact (List.cons.inj ((List.cons.inj heq).2)).1
        exact absurd (by simp [hd]) hat

/-- A bracket-free prefix of the output of `emailSub` is a prefix of its
input: replacement only ever emits blocks that start with `[`. -/
theorem emailSub_peel :
    ∀ (w t v : List Char), '[' ∉ w → emailSub t = w ++ v →
      ∃ t', t = w ++ t' := by
  intro w
  induction w with
  | nil => intro t v _ _; exact ⟨t, rfl⟩
  | cons wc w' ih =>
    intro t v hbr heq
    cases t with
    | nil =>
      rw [show emailSub [] = [] by simp [emailSub]] at heq
      simp at heq
    | cons c cs =>
      cases hm : emailMatch0 (c :: cs) with
      | some len =>
        have heq2 : EMAILTOK ++ emailSub (cs.drop (len - 1)) = (wc :: w') ++ v := by
          rw [← heq]; simp [emailSub, hm]
        have hwc : wc = '[' := by
          have hh := congrArg List.head? heq2
          simp [EMAILTOK] at hh
          exact hh.symm
        exact absurd (by rw [hwc]; exact List.mem_cons_self _ _) hbr
      | none =>
        have heq2 : c :: emailSub cs = (wc :: w') ++ v := by
          rw [← heq]; simp [emailSub, hm]
        simp only [List.cons_append] at heq2
        obtain ⟨h1, h2⟩ := List.cons.inj heq2
        obtain ⟨t', ht⟩ := ih cs v (fun hmem => hbr (List.mem_cons_of_mem _ hmem)) h2
        exact ⟨t', by rw [List.cons_append, ← h1, ht]⟩

theorem takeWhile_length_ge (p : Char → Bool) :
    ∀ (l1 l2 : List Char), (∀ x ∈ l1, p x = true) →
      l1.length ≤ ((l1 ++ l2).takeWhile p).length := by
  intro l1
  induction l1 with
  | nil => intro l2 _; simp
  | cons x l1' ih =>
    intro l2 hall
    have hx : p x = true := hall x (by simp)
    simp only [List.cons_append, List.takeWhile_cons_of_pos hx, List.length_cons]
    exact Nat.succ_le_succ (ih l2 (fun y hy => hall y (by simp [hy])))

theorem getD_append_len :
    ∀ (l1 l2 : List Char) (d : Char), (l1 ++ l2).getD l1.length d = l2.getD 0 d := by
  intro l1
  induction l1 with
  | nil => intro l2 d; rfl
  | cons x l1' ih =>
    intro l2 d
    simp only [List.cons_append, List.length_cons, List.getD_cons_succ]
    exact ih l2 d

theorem findCut_isSome (R : List Char) :
    ∀ n k, 1 ≤ k → k ≤ n → cutCond R k = true → (findCut R n).isSome = true := by
  intro n
  induction n with
  | zero => intro k h1 h2 _; omega
  | succ n ih =>
    intro k h1 h2 hc
    by_cases h : cutCond R (n + 1) = true
    · simp [findCut, h]
    · have hkne : k ≠ n + 1 := fun he => h (he ▸ hc)
      have hrec : (findCut R n).isSome = true := ih k h1 (by omega) hc
      simpa [findCut, h] using hrec

/-- Completeness of the greedy anchored matcher: a string that starts with
an email window (class char, `@`, nonempty class run, `.`, letter) is
matched at position 0. -/
theorem emailMatch0_complete (c : Char) (ds : List Char) (a : Char)
    (rest : List Char) (hc : isEmailChar c = true) (hds : ds ≠ [])
    (hall : ∀ d ∈ ds, isEmailChar d = true) (ha : a.isAlpha = true) :
    (emailMatch0 (c :: '@' :: (ds ++ '.' :: a :: rest))).isSome = true := by
  have hat : isEmailChar '@' = false := by decide
  have hloc : (c :: '@' :: (ds ++ '.' :: a :: rest)).takeWhile isEmailChar = [c] := by
    rw [List.takeWhile_cons_of_pos hc, List.takeWhile_cons_of_neg (by simp [hat])]
  have h1R : (ds ++ '.' :: a :: rest).getD ds.length ' ' = '.' := by
    have h := getD_append_len ds ('.' :: a :: rest) ' '
    simpa using h
  have h2R : (ds ++ '.' :: a :: rest).getD (ds.length + 1) ' ' = a := by
    have hre : ds ++ '.' :: a :: rest = (ds ++ ['.']) ++ a :: rest := by simp
    have hlen : ds.length + 1 = (ds ++ ['.']).length := by simp
    rw [hre, hlen, getD_append_len]
    rfl
  have hcut : cutCond (ds ++ '.' :: a :: rest) ds.length = true := by
    have hdef : cutCond (ds ++ '.' :: a :: rest) ds.length =
        (((ds ++ '.' :: a :: rest).getD ds.length ' ') == '.' &&
          ((ds ++ '.' :: a :: rest).getD (ds.length + 1) ' ').isAlpha) := rfl
    rw [hdef, h1R, h2R, ha]
    rfl
  have hle : ds.length ≤ ((ds ++ '.' :: a :: rest).takeWhile isEmailChar).length :=
    takeWhile_length_ge isEmailChar ds ('.' :: a :: rest) hall
  have h1 : 1 ≤ ds.length := by
    cases ds with
    | nil => exact absurd rfl hds
    | cons _ _ => simp
  have hfc := findCut_isSome (ds ++ '.' :: a :: rest) _ ds.length h1 hle hcut
  obtain ⟨k, hk⟩ := Option.isSome_iff_exists.mp hfc
  simp only [emailMatch0, hloc]
  simp [hk]

theorem emailSearch_append (u : List Char) :
    ∀ s, emailSearch s = true → emailSearch (u ++ s) = true := by
  induction u with
  | nil => intro s h; simpa using h
  | cons c u' ih =>
    intro s h
    have hrec := ih s h
    show ((emailMatch0 (c :: (u' ++ s))).isSome || emailSearch (u' ++ s)) = true
    rw [hrec, Bool.or_true]

/-- Soundness of the window characterisation for `search`: a text that
contains an email window is reported by `emailSearch`. -/
theorem emailSearch_of_contains {s : List Char} (h : containsEmail s) :
    emailSearch s = true := by
  obtain ⟨u, w, v, heq, c, ds, a, hws, hc, hds, hall, ha⟩ := h
  have hwv : w ++ v = c :: '@' :: (ds ++ '.' :: a :: v) := by
    rw [hws]; simp
  have hbase : emailSearch (w ++ v) = true := by
    rw [hwv]
    simp only [emailSearch, emailMatch0_complete c ds a v hc hds hall ha,
      Bool.true_or]
  rw [heq, List.append_assoc]
  exact emailSearch_append u (w ++ v) hbase

/-- After `emailSub`, no match of the email pattern remains: every window
in the output would either lie inside a replacement token (impossible — the
token has no `@`), overlap a token boundary (impossible — its characters
exclude `[` and `]`), or lie in original characters the left-to-right scan
already rejected. -/
theorem emailSub_noEmail : ∀ s : List Char, ¬ containsEmail (emailSub s) := by
  have main : ∀ n (s : List Char), s.length ≤ n → ¬ containsEmail (emailSub s) := by
    intro n
    induction n with
    | zero =>
      intro s hs
      have hnil : s = [] := List.length_eq_zero.mp (Nat.le_zero.mp hs)
      subst hnil
      rw [show emailSub [] = [] by simp [emailSub]]
      exact containsEmail_nil
    | succ n ih =>
      intro s hs
      cases s with
      | nil =>
        rw [show emailSub [] = [] by simp [emailSub]]
        exact containsEmail_nil
      | cons c cs =>
        have hcs : cs.length ≤ n := by
          simp only [List.length_cons] at hs
          omega
        cases hm : emailMatch0 (c :: cs) with
        | some len =>
          rw [show emailSub (c :: cs) = EMAILTOK ++ emailSub (cs.drop (len - 1)) by
            simp [emailSub, hm]]
          intro hce
          have h2 := containsEmail_skip_token EMAILTOK _ (by decide)
            (Or.inr (by decide)) hce
          have hlen : (cs.drop (len - 1)).length ≤ n := by
            simp only [List.length_drop]
            omega
          exact ih (cs.drop (len - 1)) hlen h2
        | none =>
          rw [show emailSub (c :: cs) = c :: emailSub cs by simp [emailSub, hm]]
          rintro ⟨u, w, v, heq, hw⟩
          cases u with
          | cons uc u' =>
            simp only [List.cons_append] at heq
            obtain ⟨-, heq2⟩ := List.cons.inj heq
            exact ih cs hcs ⟨u', w, v, heq2, hw⟩
          | nil =>
            obtain ⟨c0, ds, a, hws, hc0, hds, hall, ha⟩ := hw
            rw [List.nil_append, hws] at heq
            simp only [List.cons_append] at heq
            obtain ⟨h1, h2⟩ := List.cons.inj heq
            have hw0 : '[' ∉ ('@' :: (ds ++ '.' :: [a])) := by
              intro hmem
              simp only [List.mem_cons, List.mem_append, List.mem_singleton,
                List.not_mem_nil, or_false] at hmem
              rcases hmem with h | h | h | h
              · exact absurd h (by decide)
              · exact absurd (hall _ h) (by decide)
              · exact absurd h (by decide)
              · rw [← h] at ha
                exact absurd ha (by decide)
            have hsub : emailSub cs = ('@' :: (ds ++ '.' :: [a])) ++ v := by
              rw [h2]; simp
            obtain ⟨cs', hcs'⟩ :=
              emailSub_peel ('@' :: (ds ++ '.' :: [a])) cs v hw0 hsub
            have hmm0 : (emailMatch0 (c :: cs)).isSome = true := by
              rw [hcs', h1]
              have hshape : c0 :: (('@' :: (ds ++ '.' :: [a])) ++ cs') =
                  c0 :: '@' :: (ds ++ '.' :: a :: cs') := by simp
              rw [hshape]
              exact emailMatch0_complete c0 ds a cs' hc0 hds hall ha
            rw [hm] at hmm0
            simp at hmm0
  intro s
  exact main s.length s le_rfl

/-- A bracket-free prefix of the output of `digitsSub` is a prefix of its
input. -/
theorem digitsSub_peel (n : Nat) (tok : List Char) (tr : List Char)
    (htok : tok = '[' :: tr) :
    ∀ (w : List Char) (prev : Option Char) (t v : List Char), '[' ∉ w →
      digitsSub n tok prev t = w ++ v → ∃ t', t = w ++ t' := by
  intro w
  induction w with
  | nil => intro prev t v _ _; exact ⟨t, rfl⟩
  | cons wc w' ih =>
    intro prev t v hbr heq
    cases t with
    | nil =>
      rw [show digitsSub n tok prev [] = [] by simp [digitsSub]] at heq
      simp at heq
    | cons c cs =>
      cases hm : digitsMatch n prev (c :: cs) with
      | some len =>
        have heq2 : tok ++ digitsSub n tok (some ((c :: cs).getD (len - 1) c))
            (cs.drop (len - 1)) = (wc :: w') ++ v := by
          rw [← heq]; simp [digitsSub, hm]
        have hwc : wc = '[' := by
          have hh := congrArg List.head? heq2
          rw [htok] at hh
          simp at hh
          exact hh.symm
        exact absurd (by rw [hwc]; exact List.mem_cons_self _ _) hbr
      | none =>
        have heq2 : c :: digitsSub n tok (some c) cs = (wc :: w') ++ v := by
          rw [← heq]; simp [digitsSub, hm]
        simp only [List.cons_append] at heq2
        obtain ⟨h1, h2⟩ := List.cons.inj heq2
        obtain ⟨t', ht⟩ :=
          ih (some c) cs v (fun hmem => hbr (List.mem_cons_of_mem _ hmem)) h2
        exact ⟨t', by rw [List.cons_append, ← h1, ht]⟩

/-- `digitsSub` preserves freedom from email matches: a window in its
output cannot overlap a replacement token, so it would have to occur among
original characters, contradicting the hypothesis. -/
theorem digitsSub_noEmail (n : Nat) (tok : List Char) (tr : List Char)
    (htok : tok = '[' :: tr) (hat : '@' ∉ tok)
    (hlast : tok.getLast? = some ']') :
    ∀ (m : Nat) (s : List Char) (prev : Option Char), s.length ≤ m →
      ¬ containsEmail s → ¬ containsEmail (digitsSub n tok prev s) := by
  intro m
  induction m with
  | zero =>
    intro s prev hs _
    have hnil : s = [] := List.length_eq_zero.mp (Nat.le_zero.mp hs)
    subst hnil
    rw [show digitsSub n tok prev [] = [] by simp [digitsSub]]
    exact containsEmail_nil
  | succ m ih =>
    intro s prev hs hnc
    cases s with
    | nil =>
      rw [show digitsSub n tok prev [] = [] by simp [digitsSub]]
      exact containsEmail_nil
    | cons c cs =>
      have hcs : cs.length ≤ m := by simp only [List.length_cons] at hs; omega
      have hnc' : ¬ containsEmail cs := fun hx => hnc (containsEmail_of_tail hx)
      cases hm : digitsMatch n prev (c :: cs) with
      | some len =>
        rw [show digitsSub n tok prev (c :: cs) =
            tok ++ digitsSub n tok (some ((c :: cs).getD (len - 1) c))
              (cs.drop (len - 1)) by simp [digitsSub, hm]]
        intro hce
        have h2 := containsEmail_skip_token tok _ hat (Or.inr hlast) hce
        have hlen : (cs.drop (len - 1)).length ≤ m := by
          simp only [List.length_drop]; omega
        have hncd : ¬ containsEmail (cs.drop (len - 1)) :=
          fun hx => hnc' (containsEmail_of_drop (len - 1) hx)
        exact ih (cs.drop (len - 1)) _ hlen hncd h2
      | none =>
        rw [show digitsSub n tok prev (c :: cs) = c :: digitsSub n tok (some c) cs by
          simp [digitsSub, hm]]
        rintro ⟨u, w, v, heq, hw⟩
        cases u with
        | cons uc u' =>
          simp only [List.cons_append] at heq
          obtain ⟨-, heq2⟩ := List.cons.inj heq
          exact ih cs (some c) hcs hnc' ⟨u', w, v, heq2, hw⟩
        | nil =>
          obtain ⟨c0, ds, a, hws, hc0, hds, hall, ha⟩ := hw
          rw [List.nil_append, hws] at heq
          simp only [List.cons_append] at heq
          obtain ⟨h1, h2⟩ := List.cons.inj heq
          have hw0 : '[' ∉ ('@' :: (ds ++ '.' :: [a])) := by
            intro hmem
            simp only [List.mem_cons, List.mem_append, List.mem_singleton,
              List.not_mem_nil, or_false] at hmem
            rcases hmem with h | h | h | h
            · exact absurd h (by decide)
            · exact absurd (hall _ h) (by decide)
            · exact absurd h (by decide)
            · rw [← h] at ha
              exact absurd ha (by decide)
          have hsub : digitsSub n tok (some c) cs =
              ('@' :: (ds ++ '.' :: [a])) ++ v := by
            rw [h2]; simp
          obtain ⟨cs', hcs'⟩ := digitsSub_peel n tok tr htok
            ('@' :: (ds ++ '.' :: [a])) (some c) cs v hw0 hsub
          apply hnc
          refine ⟨[], c0 :: '@' :: (ds ++ '.' :: [a]), cs', ?_,
            c0, ds, a, rfl, hc0, hds, hall, ha⟩
          rw [hcs', h1]
          simp

/-- C6: for every text containing a match of the email pattern, the masked
text returned by `mask_pii` contains no match of the email pattern, and
`"email"` is a member of the returned PII category list. -/
theorem c6_mask_pii_email (text : List Char) (h : containsEmail text) :
    ¬ containsEmail (mask_pii text).masked_text ∧
    "email" ∈ (mask_pii text).pii := by
  have hs : emailSearch text = true := emailSearch_of_contains h
  have h1 : ¬ containsEmail (emailSub text) := emailSub_noEmail text
  have hstep10 : ∀ s : List Char, ¬ containsEmail s →
      ¬ containsEmail
        (if digitsSearch 10 none s then digitsSub 10 PHONETOK none s else s) := by
    intro s hsnc
    split
    · exact digitsSub_noEmail 10 PHONETOK _ rfl (by decide) (by decide)
        s.length s none le_rfl hsnc
    · exact hsnc
  have hstep12 : ∀ s : List Char, ¬ containsEmail s →
      ¬ containsEmail
        (if digitsSearch 12 none s then digitsSub 12 AADHAARTOK none s else s) := by
    intro s hsnc
    split
    · exact digitsSub_noEmail 12 AADHAARTOK _ rfl (by decide) (by decide)
        s.length s none le_rfl hsnc
    · exact hsnc
  constructor
  · simp only [mask_pii, hs, if_true]
    exact hstep12 _ (hstep10 _ h1)
  · simp only [mask_pii, hs, if_true]
    split <;> split <;> simp

theorem c6_witness :
    containsEmail ("a@b.cd".toList) ∧
    ¬ containsEmail (mask_pii ("a@b.cd".toList)).masked_text ∧
    "email" ∈ (mask_pii ("a@b.cd".toList)).pii := by
  have hw : containsEmail ("a@b.cd".toList) :=
    ⟨[], ['a', '@', 'b', '.', 'c'], ['d'], by decide,
     'a', ['b'], 'c', by decide, by decide, by decide, by decide⟩
  exact ⟨hw, (c6_mask_pii_email _ hw).1, (c6_mask_pii_email _ hw).2⟩

/-! The `/api/chat` endpoint slice of `app/app.py` (lines 62-134) that the
audit-failure claim is about: mask, decide, build the explainability dict,
try to insert the audit row (a failure is caught and recorded as
`explain["audit_error"]`), then answer according to the decision. -/

/-- The mock LLM knowledge base of utils.py lines 123-126. -/
def KB : List (String × String) :=
  [("What are symptoms of flu?",
    "Common flu symptoms include fever, cough, sore throat, muscle aches. Seek medical care if breathing difficulty occurs."),
   ("What is a normal blood pressure?",
    "Normal blood pressure is around 120/80 mmHg, but targets depend on age and comorbidities.")]

/-- Python `str.lower()` on the ASCII range of `Char.toLower`. -/
def lowerL (s : List Char) : List Char := s.map Char.toLower

/-- Python's substring test `needle in hay`: `needle` occurs contiguously
in `hay`. -/
def containsSub : List Char → List Char → Bool
  | needle, [] => needle.isEmpty
  | needle, c :: cs => needle.isPrefixOf (c :: cs) || containsSub needle cs

/-- Embedding of `pass_through_llm` (utils.py lines 128-133): return the
answer of the first KB entry whose lowercased key occurs in the lowercased
text, else the fixed fallback answer. -/
def pass_through_llm (text : List Char) : String :=
  match KB.find? (fun kv => containsSub (lowerL kv.1.toList) (lowerL text)) with
  | some kv => kv.2
  | none =>
    "I can provide general medical information, but not personalized prescriptions. Consult a licensed provider for treatment decisions."

/-- One entry of `explain["matched_rules"]` (app.py line 82). -/
structure ExplainRule where
  id : String
  explanation : String
  action : String
deriving DecidableEq, Repr

/-- The `explain` dict built at app.py lines 79-84, with the `audit_id` /
`audit_error` keys optionally added at lines 101 and 104. -/
structure ExplainInfo where
  masked_text : List Char
  pii_detected : List String
  matched_rules : List ExplainRule
  classifier : ClassifierResult
  audit_id : Option Nat := none
  audit_error : Option String := none
deriving DecidableEq, Repr

/-- The audit record of app.py lines 87-98. -/
structure AuditRecord where
  timestamp : String
  session_id : String
  raw_text : List Char
  masked_text : List Char
  pii : List String
  decision : Decision
  classifier : ClassifierResult
  matched_rules : List String
  block_hits : List Hit
  warn_hits : List Hit
deriving DecidableEq, Repr

/-- The JSON response of the endpoint; `none` models an absent key. -/
structure ChatResponse where
  decision : Decision
  safe_response : Option String := none
  llm_response : Option String := none
  warning : Option String := none
  explain : ExplainInfo
deriving DecidableEq, Repr

/-- Embedding of `chat_endpoint` (app.py lines 62-134).  `insert_audit` is
the oracle for the audit sink: `Except.error` models `insert_audit`
raising, which the `try/except` at lines 99-104 turns into the
`audit_error` field; `now` models `datetime.utcnow().isoformat()`. -/
def chat_endpoint (research : String → String → Bool)
    (clf : String → List (String × ℚ)) (rules : List Rule)
    (insert_audit : AuditRecord → Except String Nat)
    (now session_id : String) (text : List Char) : ChatResponse :=
  let pii_res := mask_pii text
  let masked := pii_res.masked_text
  let decision := decision_aggregator_src research clf rules (String.mk masked)
  let explain0 : ExplainInfo :=
    { masked_text := masked, pii_detected := pii_res.pii,
      matched_rules := decision.matched_rules.map
        (fun r => { id := r.id, explanation := r.explanation, action := r.action }),
      classifier := decision.classifier }
  let audit_record : AuditRecord :=
    { timestamp := now ++ "Z", session_id := session_id, raw_text := text,
      masked_text := masked, pii := pii_res.pii, decision := decision.decision,
      classifier := decision.classifier,
      matched_rules := decision.matched_rules.map Rule.id,
      block_hits := decision.block_hits.getD [],
      warn_hits := decision.warn_hits.getD [] }
  let explain :=
    match insert_audit audit_record with
    | .ok aid => { explain0 with audit_id := some aid }
    | .error e => { explain0 with audit_error := some e }
  match decision.decision with
  | .BLOCK =>
    { decision := .BLOCK,
      safe_response := some "Sorry, I cannot assist with that. This request appears unsafe. Please consult a licensed healthcare professional or ask for general information.",
      explain := explain }
  | .WARN =>
    { decision := .WARN,
      llm_response := some (pass_through_llm masked),
      warning := some "This query appears risky. Please consult a professional for prescriptions/procedures.",
      explain := explain }
  | .ALLOW =>
    { decision := .ALLOW,
      llm_response := some (pass_through_llm masked),
      explain := explain }

/-- C9: an audit-sink failure never changes the decision or the answer
fields of the response — the request completes with exactly the decision a
successful audit write would have produced (which is the aggregator's
decision), and the failure surfaces only as the soft `audit_error`
explainability field. -/
theorem c9_audit_failure_is_soft (research : String → String → Bool)
    (clf : String → List (String × ℚ)) (rules : List Rule)
    (now sid : String) (text : List Char) (e : String) (i : Nat) :
    ((chat_endpoint research clf rules (fun _ => .error e) now sid text).decision =
      (chat_endpoint research clf rules (fun _ => .ok i) now sid text).decision) ∧
    ((chat_endpoint research clf rules (fun _ => .error e) now sid text).decision =
      (decision_aggregator_src research clf rules
        (String.mk (mask_pii text).masked_text)).decision) ∧
    ((chat_endpoint research clf rules (fun _ => .error e) now sid text).llm_response =
      (chat_endpoint research clf rules (fun _ => .ok i) now sid text).llm_response) ∧
    ((chat_endpoint research clf rules (fun _ => .error e) now sid text).safe_response =
      (chat_endpoint research clf rules (fun _ => .ok i) now sid text).safe_response) ∧
    ((chat_endpoint research clf rules (fun _ => .error e) now sid text).warning =
      (chat_endpoint research clf rules (fun _ => .ok i) now sid text).warning) ∧
    ((chat_endpoint research clf rules (fun _ => .error e) now sid
        text).explain.audit_error = some e) ∧
    ((chat_endpoint research clf rules (fun _ => .error e) now sid
        text).explain.audit_id = none) ∧
    ((chat_endpoint research clf rules (fun _ => .ok i) now sid
        text).explain.audit_error = none) ∧
    ((chat_endpoint research clf rules (fun _ => .ok i) now sid
        text).explain.audit_id = some i) := by
  cases hdec : (decision_aggregator_src research clf rules
      (String.mk (mask_pii text).masked_text)).decision <;>
    simp [chat_endpoint, hdec]

end MQF
